import Mathlib

/-!
# deploy-sh: the kaniko build dispatcher (`kube.go`, `main.go`)

A shallow embedding of the Go sources.  Calls that leave the process (the
cluster API, the file system, the random source, the JSON decoder, the clock)
are answered by an explicit environment `Env`; every embedded function returns
the list of events it caused together with its Go result.  A loop that may
poll for ever is given fuel and answers `none` when the fuel runs out.
-/

namespace DeploySh

/-! ## Data model -/

/-- Go `error` values are kept as their message. -/
abbrev Error := String

/-- The type `v1.PodPhase` is a Go string type. -/
abbrev PodPhase := String

def PodPending : PodPhase := "Pending"
def PodRunning : PodPhase := "Running"
def PodSucceeded : PodPhase := "Succeeded"
def PodFailed : PodPhase := "Failed"
def PodUnknown : PodPhase := "Unknown"

/-- File contents and ConfigMap values: Go strings used as raw byte sequences. -/
abbrev Bytes := List UInt8

/-- What `json.Unmarshal` stores in an `interface{}`.  An object is kept as its
entries in the order in which `range` visits them in the run at hand (Go leaves
that order unspecified, so a statement about all entry lists is a statement
about all orders); numbers are kept as their literal. -/
inductive JValue where
  | null : JValue
  | bool (b : Bool) : JValue
  | num (literal : String) : JValue
  | str (s : String) : JValue
  | arr (items : List JValue) : JValue
  | obj (entries : List (String × JValue)) : JValue

structure Secret where
  Data : List (String × String)

structure VolumeMount where
  Name : String
  MountPath : String
deriving DecidableEq, Repr

structure Container where
  Name : String
  Image : String
  Args : List String
  VolumeMounts : List VolumeMount
deriving DecidableEq, Repr

structure KeyToPath where
  Key : String
  Path : String
deriving DecidableEq, Repr

inductive VolumeSource where
  | ConfigMap (name : String) : VolumeSource
  | Secret (secretName : String) (items : List KeyToPath) : VolumeSource
deriving DecidableEq, Repr

structure Volume where
  Name : String
  Source : VolumeSource
deriving DecidableEq, Repr

structure PodSpec where
  Containers : List Container
  RestartPolicy : String
  Volumes : List Volume
deriving DecidableEq, Repr

structure Pod where
  Name : String
  Spec : PodSpec
  Phase : PodPhase
deriving DecidableEq, Repr

structure ConfigMap where
  Name : String
  Data : List (String × Bytes)
deriving DecidableEq, Repr

mutual
/-- What `os.Lstat` and the reads that follow it find at a path.  A `file` is
any entry whose `IsDir()` is false: `regular` is false for a symbolic link, a
device, a socket or a pipe, and `content` is the result of `os.ReadFile`. -/
inductive Node where
  | missing (e : Error) : Node
  | file (regular : Bool) (content : Except Error Bytes) : Node
  | dir (readErr : Option Error) (entries : Entries) : Node
/-- The entries of a directory in the order `readDirNames` returns them. -/
inductive Entries where
  | nil : Entries
  | cons (name : String) (node : Node) (rest : Entries) : Entries
end

/-- What a run does to the outside world, in program order. -/
inductive Event where
  | printed (line : String) : Event
  | secretGet (ns name : String) : Event
  | configMapCreate (ns : String) (cm : ConfigMap) : Event
  | podCreate (ns : String) (pod : Pod) : Event
  | podGet (ns name : String) : Event
  | logStream (ns name : String) : Event
  | logClose : Event
  | sleep (seconds : Nat) : Event
deriving DecidableEq, Repr

/-- A Go call that returned: the events it caused, its value and its error. -/
structure Ret (α : Type) where
  trace : List Event
  val : α
  err : Option Error

/-- How the build command leaves: by returning an error value or by a panic. -/
inductive Exit where
  | returned (err : Option Error) : Exit
  | panicked (msg : String) : Exit
deriving DecidableEq, Repr

structure Run where
  trace : List Event
  exit : Exit
deriving DecidableEq, Repr

/-- The answers of everything outside the process.  Calls made repeatedly are
indexed by their call number, starting at 0. -/
structure Env where
  /-- The current context of `kubeConfig.RawConfig()`. -/
  rawConfig : Except Error String
  /-- The error of `kubeConfig.ClientConfig()`. -/
  clientConfig : Option Error
  /-- The error of `kubernetes.NewForConfig`. -/
  newForConfig : Option Error
  /-- The secret read by namespace and name. -/
  secretGet : String → String → Except Error Secret
  /-- The result of `json.Unmarshal` into a `map[string]interface{}`. -/
  unmarshal : String → Except Error (List (String × JValue))
  /-- The value of the i-th `rand.Int(rand.Reader, 36)`; `none` when it fails. -/
  randInt : Nat → Option Nat
  /-- The pair returned by `os.Getwd()`. -/
  getwd : String × Option Error
  /-- The pod create call. -/
  podCreate : String → Pod → Except Error Pod
  /-- The phase of the pod returned by the i-th pod read. -/
  podGet : Nat → Except Error PodPhase
  /-- The error of the j-th log stream open. -/
  logStream : Nat → Option Error
  /-- The error of the ConfigMap create call. -/
  configMapCreate : String → ConfigMap → Option Error
  /-- The file tree found at a path. -/
  fileTree : String → Node

/-! ## Configuration (`kube.go`, lines 22-28) -/

def namespace_ : String := "default"
def volumeMountName : String := "dockerfile-config"
def secretName : String := "dockercred"
def podNamePrefix : String := "kaniko-pod-"
def nameLength : Int := 10

/-! ## `main.go` -/

def getOrDefault (value : String) (defaultValue : String) : String :=
  if value = "" then defaultValue else value

/-! ## `generateRandomName` -/

def chars : String := "abcdefghijklmnopqrstuvwxyz0123456789"

/-- The loop of `generateRandomName` with `n` rounds left, about to make draw
number `i`.  A failed draw leaves a nil `*big.Int` whose `Int64` panics, and an
index outside `chars` panics: both are `none`. -/
def writeRandom (draws : Nat → Option Nat) : Nat → Nat → String → Option String
  | 0, _, name => some name
  | n + 1, i, name =>
    match draws i with
    | none => none
    | some randIndex =>
      match chars.data.get? randIndex with
      | none => none
      | some c => writeRandom draws n (i + 1) (name.push c)

def generateRandomName (draws : Nat → Option Nat) (pfx : String) (length : Int) : Option String :=
  writeRandom draws length.toNat 0 pfx

/-! ## `getDockerUsername` -/

/-- The `for _, auth := range auths` loop: the first entry that is an object
ends the search, whatever its `username` is. -/
def rangeAuths : List (String × JValue) → String × Option Error
  | [] => ("", some "username not found in Docker config")
  | (_, JValue.obj authMap) :: _ =>
    (match authMap.lookup "username" with
      | some (JValue.str username) => username
      | _ => "", none)
  | _ :: rest => rangeAuths rest

def getDockerUsername (env : Env) (ns : String) : Ret String :=
  match env.secretGet ns secretName with
  | .error e => ⟨[.secretGet ns secretName], "", some e⟩
  | .ok secret =>
    match secret.Data.lookup ".dockerconfigjson" with
    | none => ⟨[.secretGet ns secretName], "",
        some "dockercred secret does not contain .dockerconfigjson"⟩
    | some data =>
      match env.unmarshal data with
      | .error e => ⟨[.secretGet ns secretName], "", some e⟩
      | .ok dockerConfig =>
        match dockerConfig.lookup "auths" with
        | some (JValue.obj auths) =>
          ⟨[.secretGet ns secretName], (rangeAuths auths).1, (rangeAuths auths).2⟩
        | _ => ⟨[.secretGet ns secretName], "", some "auths not found in Docker config"⟩

/-! ## `createConfigMap` -/

/-- The assignment `m[k] = v` on a Go map kept as its list of entries. -/
def mapSet (m : List (String × Bytes)) (k : String) (v : Bytes) : List (String × Bytes) :=
  (k, v) :: m.filter (fun p => p.1 != k)

/-- The result of `filepath.Rel(dir, path)` for the path reached from `dir`
through the given entry names. -/
def relPath : List String → String
  | [] => "."
  | [a] => a
  | a :: b :: rest => a ++ "/" ++ relPath (b :: rest)

/-- The closure passed to `filepath.Walk`, at the entry reached through `path`:
`isDir` is `info.IsDir()`, `read` the result of `os.ReadFile` and `err` the
error `Walk` hands over. -/
def walkFn (files : List (String × Bytes)) (path : List String) (isDir : Bool)
    (read : Except Error Bytes) (err : Option Error) : Except Error (List (String × Bytes)) :=
  match err with
  | some e => .error e
  | none =>
    if !isDir then
      match read with
      | .error e => .error e
      | .ok content => .ok (mapSet files (relPath path) content)
    else .ok files

mutual
/-- The function `filepath.Walk` with the closure above: an entry whose `Lstat`
fails and a directory that cannot be listed are handed to the closure with
the error, which the closure returns, and `Walk` stops at the first error. -/
def walk (path : List String) : Node → List (String × Bytes) → Except Error (List (String × Bytes))
  | .missing e, files => walkFn files path false (.error e) (some e)
  | .file _ content, files => walkFn files path false content none
  | .dir readErr entries, files =>
    match walkFn files path true (.error "is a directory") readErr with
    | .error e => .error e
    | .ok files1 => walkEntries path entries files1
/-- The loop of `walk` over the names of a directory. -/
def walkEntries (path : List String) : Entries → List (String × Bytes) →
    Except Error (List (String × Bytes))
  | .nil, files => .ok files
  | .cons name node rest, files =>
    match walk (path ++ [name]) node files with
    | .error e => .error e
    | .ok files1 => walkEntries path rest files1
end

def createConfigMap (env : Env) (ns name dir : String) : Ret Unit :=
  match walk [] (env.fileTree dir) [] with
  | .error e => ⟨[], (), some e⟩
  | .ok files =>
    let configMap : ConfigMap := ⟨name, files⟩
    ⟨[.configMapCreate ns configMap], (), env.configMapCreate ns configMap⟩

/-! ## `applyPod` -/

/-- The pod literal of `applyPod`. -/
def kanikoPod (podName volumeMountName userName repo tag dir : String) : Pod :=
  { Name := podName
    Spec :=
      { Containers :=
          [{ Name := "kaniko"
             Image := "gcr.io/kaniko-project/executor:latest"
             Args :=
               ["--dockerfile=/workspace/Dockerfile",
                "--context=dir:///workspace/",
                "--destination=" ++ userName ++ "/" ++ repo ++ ":" ++ tag]
             VolumeMounts :=
               [{ Name := volumeMountName, MountPath := "/workspace" },
                { Name := "kaniko-secret", MountPath := "/kaniko/.docker" }] }]
        RestartPolicy := "Never"
        Volumes :=
          [{ Name := volumeMountName, Source := .ConfigMap dir },
           { Name := "kaniko-secret"
             Source := .Secret secretName [{ Key := ".dockerconfigjson", Path := "config.json" }] }] }
    Phase := "" }

def applyPod (env : Env) (ns podName volumeMountName userName repo tag : String) : Ret Unit :=
  let dir := env.getwd.1
  let t0 : List Event := [.printed ("Mounting current directory " ++ dir ++ "\n")]
  match env.getwd.2 with
  | some e => ⟨t0, (), some e⟩
  | none =>
    let pod := kanikoPod podName volumeMountName userName repo tag dir
    match env.podCreate ns pod with
    | .error e => ⟨t0 ++ [.podCreate ns pod], (), some e⟩
    | .ok created =>
      ⟨t0 ++ [.podCreate ns pod,
          .printed ("Pod " ++ created.Name ++ "[" ++ created.Phase ++ "] created.\n")], (), none⟩

/-! ## `waitForPodCompletionAndStreamLogs` -/

/-- The deferred `logs.Close()` calls, run when the function returns. -/
def deferred (opened : Nat) : List Event := List.replicate opened Event.logClose

/-- The `for` loop, about to make pod read number `i` with `j` log streams
opened so far and `status` holding the phase of the previous read. -/
def waitLoop (env : Env) (ns name : String) : Nat → Nat → Nat → PodPhase → Option (Ret PodPhase)
  | 0, _, _, _ => none
  | fuel + 1, i, j, status =>
    match env.podGet i with
    | .error e => some ⟨.podGet ns name :: deferred j, status, some e⟩
    | .ok phase =>
      if phase = PodSucceeded ∨ phase = PodFailed then
        some ⟨.podGet ns name :: deferred j, phase, none⟩
      else if phase = PodRunning then
        match env.logStream j with
        | some e =>
          some ⟨[.podGet ns name, .printed ("Pod " ++ name ++ " is running...\n"),
            .logStream ns name] ++ deferred j, phase, some e⟩
        | none =>
          (waitLoop env ns name fuel (i + 1) (j + 1) phase).map fun r =>
            { r with trace := [.podGet ns name, .printed ("Pod " ++ name ++ " is running...\n"),
                .logStream ns name, .printed ("Logs for " ++ name ++ ":\n"), .sleep 10] ++ r.trace }
      else
        (waitLoop env ns name fuel (i + 1) j phase).map fun r =>
          { r with trace := [.podGet ns name, .sleep 10] ++ r.trace }

def waitForPodCompletionAndStreamLogs (env : Env) (fuel : Nat) (ns name : String) :
    Option (Ret PodPhase) :=
  waitLoop env ns name fuel 0 0 ""

/-! ## `BuildKaniko` and `buildDeploy` -/

def BuildKaniko (env : Env) (fuel : Nat) (repo tag : String) : Option Run :=
  match env.rawConfig with
  | .error e => some ⟨[], .returned (some ("failed to get raw config: " ++ e))⟩
  | .ok currentContext =>
    let t0 : List Event := [.printed ("Using Kubernetes context: " ++ currentContext ++ "\n")]
    match env.clientConfig with
    | some e => some ⟨t0, .returned (some ("failed to get client config: " ++ e))⟩
    | none =>
      match env.newForConfig with
      | some e => some ⟨t0, .returned (some ("failed to create clientset: " ++ e))⟩
      | none =>
        let u := getDockerUsername env namespace_
        match u.err with
        | some e => some ⟨t0 ++ u.trace, .returned (some ("failed to get Docker username: " ++ e))⟩
        | none =>
          match generateRandomName env.randInt podNamePrefix nameLength with
          | none => some ⟨t0 ++ u.trace, .panicked "runtime error"⟩
          | some podName =>
            let a := applyPod env namespace_ podName volumeMountName u.val repo tag
            match a.err with
            | some e =>
              some ⟨t0 ++ u.trace ++ a.trace, .returned (some ("failed to apply Pod: " ++ e))⟩
            | none =>
              match waitForPodCompletionAndStreamLogs env fuel namespace_ podName with
              | none => none
              | some w =>
                match w.err with
                | some e =>
                  some ⟨t0 ++ u.trace ++ a.trace ++ w.trace,
                    .returned (some ("failed to monitor Pod: " ++ e))⟩
                | none =>
                  some ⟨t0 ++ u.trace ++ a.trace ++ w.trace ++
                      [.printed (if w.val = PodSucceeded then "Build uploaded successfully.\n"
                        else "Build failed.\n")],
                    .returned none⟩

/-- The action of the command line: `repoFlag` and `tagFlag` are the values of
the two flags, and an error of the build is turned into a panic. -/
def buildDeploy (env : Env) (fuel : Nat) (repoFlag tagFlag : String) : Option Run :=
  let repoName := repoFlag
  let tag := getOrDefault tagFlag "latest"
  match BuildKaniko env fuel repoName tag with
  | none => none
  | some r =>
    match r.exit with
    | .returned (some err) =>
      some ⟨r.trace, .panicked ("error occured while building\n" ++ err)⟩
    | .returned none => some ⟨r.trace, .returned none⟩
    | .panicked msg => some ⟨r.trace, .panicked msg⟩

/-! ## Specification vocabulary -/

/-- A phase that ends the supervision. -/
def Terminal (p : PodPhase) : Prop := p = PodSucceeded ∨ p = PodFailed

instance : DecidablePred Terminal := fun p => by unfold Terminal; exact inferInstance

/-- The events of one pass through the loop body on a phase that is not
terminal, when the log stream (if one is asked for) opens. -/
def pollEvents (ns name : String) (phase : PodPhase) : List Event :=
  if phase = PodRunning then
    [.podGet ns name, .printed ("Pod " ++ name ++ " is running...\n"),
      .logStream ns name, .printed ("Logs for " ++ name ++ ":\n"), .sleep 10]
  else [.podGet ns name, .sleep 10]

/-- The calls that change the cluster: the two create calls. -/
def Event.isWrite : Event → Bool
  | .configMapCreate _ _ => true
  | .podCreate _ _ => true
  | _ => false

/-- The cluster writes of a run, in program order. -/
def clusterWrites (trace : List Event) : List Event := trace.filter Event.isWrite

mutual
/-- The entries of a tree that are not directories and can be read, each with
its path relative to the tree (the names leading to it) and its contents, in
the order of the walk. -/
def Node.files : Node → List (List String × Bytes)
  | .missing _ => []
  | .file _ (.ok content) => [([], content)]
  | .file _ (.error _) => []
  | .dir _ entries => entries.files
/-- The readable non-directory entries below a list of directory entries. -/
def Entries.files : Entries → List (List String × Bytes)
  | .nil => []
  | .cons name node rest => (node.files.map fun e => (name :: e.1, e.2)) ++ rest.files
end

/-- The assignment that the walk, started at `path`, makes for an entry found
further down. -/
def store (path : List String) (m : List (String × Bytes)) (e : List String × Bytes) :
    List (String × Bytes) :=
  mapSet m (relPath (path ++ e.1)) e.2

mutual
/-- The regular files of a tree that can be read, with relative path and contents. -/
def Node.regularFiles : Node → List (List String × Bytes)
  | .missing _ => []
  | .file true (.ok content) => [([], content)]
  | .file _ _ => []
  | .dir _ entries => entries.regularFiles
/-- The readable regular files below a list of directory entries. -/
def Entries.regularFiles : Entries → List (List String × Bytes)
  | .nil => []
  | .cons name node rest =>
    (node.regularFiles.map fun e => (name :: e.1, e.2)) ++ rest.regularFiles
end

mutual
/-- No step of the walk fails: every entry can be inspected, every directory
listed and every non-directory read. -/
def Node.healthy : Node → Bool
  | .missing _ => false
  | .file _ (.ok _) => true
  | .file _ (.error _) => false
  | .dir none entries => entries.healthy
  | .dir (some _) _ => false
/-- No step of the walk below a list of directory entries fails. -/
def Entries.healthy : Entries → Bool
  | .nil => true
  | .cons _ node rest => node.healthy && rest.healthy
end

mutual
/-- Every non-directory entry of the tree is a regular file. -/
def Node.allRegular : Node → Bool
  | .missing _ => true
  | .file regular _ => regular
  | .dir _ entries => entries.allRegular
/-- Every non-directory entry below a list of directory entries is regular. -/
def Entries.allRegular : Entries → Bool
  | .nil => true
  | .cons _ node rest => node.allRegular && rest.allRegular
end

/-- The names of a list of directory entries. -/
def Entries.names : Entries → List String
  | .nil => []
  | .cons name _ rest => name :: rest.names

mutual
/-- The names of a file system: no name contains the separator and the names
within one directory are pairwise distinct. -/
def Node.wellNamed : Node → Bool
  | .dir _ entries => entries.wellNamed
  | _ => true
/-- The names below a list of directory entries are those of a file system. -/
def Entries.wellNamed : Entries → Bool
  | .nil => true
  | .cons name node rest =>
    !name.data.contains '/' && !rest.names.contains name && node.wellNamed && rest.wellNamed
end

/-! ## Concrete inputs -/

/-- A build context: a Dockerfile, a source directory with one file, and a
symbolic link `latest` to the Dockerfile, which is not a regular file and is
read through the link. -/
def demoTree : Node :=
  .dir none
    (.cons "Dockerfile" (.file true (.ok [70, 82, 79, 77]))
      (.cons "latest" (.file false (.ok [70, 82, 79, 77]))
        (.cons "src" (.dir none (.cons "main.go" (.file true (.ok [112, 107, 103])) .nil))
          .nil)))

/-- The build context with a file that cannot be read. -/
def brokenTree : Node :=
  .dir none
    (.cons "Dockerfile" (.file true (.ok [70, 82, 79, 77]))
      (.cons "secret.key" (.file true (.error "permission denied")) .nil))

/-- The credential payload of the specification:
an `auths` object with one registry entry carrying the username `alice`. -/
def alicePayload : String :=
  "\x7b\"auths\":\x7b\"registry.example.com\":\x7b\"username\":\"alice\"\x7d\x7d\x7d"

/-- A payload whose only registry entry is an object without a username. -/
def anonymousPayload : String :=
  "\x7b\"auths\":\x7b\"registry.example.com\":\x7b\x7d\x7d\x7d"

/-- A payload whose only registry entry carries a number as username. -/
def numericPayload : String :=
  "\x7b\"auths\":\x7b\"registry.example.com\":\x7b\"username\":42\x7d\x7d\x7d"

/-- A payload without the `auths` key. -/
def noAuthsPayload : String := "\x7b\x7d"

/-- A payload whose `auths` value is a string. -/
def stringAuthsPayload : String := "\x7b\"auths\":\"none\"\x7d"

/-- The JSON decoder on the payloads above; every other input is rejected. -/
def demoUnmarshal (data : String) : Except Error (List (String × JValue)) :=
  if data = alicePayload then
    .ok [("auths", .obj [("registry.example.com", .obj [("username", .str "alice")])])]
  else if data = anonymousPayload then
    .ok [("auths", .obj [("registry.example.com", .obj [])])]
  else if data = numericPayload then
    .ok [("auths", .obj [("registry.example.com", .obj [("username", .num "42")])])]
  else if data = noAuthsPayload then .ok []
  else if data = stringAuthsPayload then .ok [("auths", .str "none")]
  else .error "invalid character"

/-- A cluster that holds the credential secret with the given payload, accepts
every create call, answers the pod reads with the given phases in turn and the
log stream opens with `logErr`; the process runs in `/home/dev/myapp`. -/
def demoEnv (payload : String) (phases : List PodPhase) (logErr : Nat → Option Error) : Env :=
  { rawConfig := .ok "minikube"
    clientConfig := none
    newForConfig := none
    secretGet := fun _ name =>
      if name = "dockercred" then .ok ⟨[(".dockerconfigjson", payload)]⟩
      else .error "secrets not found"
    unmarshal := demoUnmarshal
    randInt := fun i => some ((7 * i + 3) % 36)
    getwd := ("/home/dev/myapp", none)
    podCreate := fun _ pod => .ok { pod with Phase := "Pending" }
    podGet := fun i =>
      match phases.get? i with
      | some p => .ok p
      | none => .error "pods not found"
    logStream := logErr
    configMapCreate := fun _ _ => none
    fileTree := fun _ => .dir none .nil }

/-- The demo cluster for a process that finds the given tree at every path. -/
def treeEnv (tree : Node) : Env :=
  { demoEnv alicePayload [] (fun _ => none) with fileTree := fun _ => tree }

/-! ## The supervision loop -/

theorem count_podGet_pollEvents (ns name : String) (p : PodPhase) :
    (pollEvents ns name p).count (.podGet ns name) = 1 := by
  unfold pollEvents
  split <;> simp [List.count_cons]

theorem count_logStream_pollEvents (ns name : String) (p : PodPhase) :
    (pollEvents ns name p).count (.logStream ns name) = if p = PodRunning then 1 else 0 := by
  unfold pollEvents
  split <;> simp [List.count_cons]

theorem count_deferred (e : Event) (h : e ≠ .logClose) (n : Nat) : (deferred n).count e = 0 := by
  unfold deferred
  rw [List.count_eq_zero]
  intro hmem
  exact h (List.eq_of_mem_replicate hmem)

/-- The loop run on the reads `pre ++ [last]`, all of `pre` non-terminal and
`last` terminal, with every log stream it asks for opening. -/
theorem waitLoop_reaches (env : Env) (ns name : String) (last : PodPhase) (hlast : Terminal last) :
    ∀ (pre : List PodPhase) (i j : Nat) (status : PodPhase) (fuel : Nat),
      (∀ p ∈ pre, ¬ Terminal p) →
      (∀ m (h : m < pre.length), env.podGet (i + m) = .ok pre[m]) →
      env.podGet (i + pre.length) = .ok last →
      (∀ m, m < pre.count PodRunning → env.logStream (j + m) = none) →
      pre.length < fuel →
      waitLoop env ns name fuel i j status =
        some ⟨(pre.flatMap (pollEvents ns name)) ++
          (.podGet ns name :: deferred (j + pre.count PodRunning)), last, none⟩ := by
  intro pre
  induction pre with
  | nil =>
    intro i j status fuel _ _ hl _ hf
    obtain ⟨f, rfl⟩ : ∃ f, fuel = f + 1 := ⟨fuel - 1, by simp at hf; omega⟩
    simp only [List.length_nil, Nat.add_zero] at hl
    have ht : last = PodSucceeded ∨ last = PodFailed := hlast
    simp [waitLoop, hl, ht]
  | cons p pre ih =>
    intro i j status fuel hnt hreads hl hlogs hf
    obtain ⟨f, rfl⟩ : ∃ f, fuel = f + 1 := ⟨fuel - 1, by simp at hf; omega⟩
    have hp : env.podGet i = .ok p := by simpa using hreads 0 (by simp)
    have hpnt : ¬ (p = PodSucceeded ∨ p = PodFailed) := hnt p (by simp)
    have hreads1 : ∀ m (h : m < pre.length), env.podGet (i + 1 + m) = .ok pre[m] := by
      intro m h
      have := hreads (m + 1) (by simp; omega)
      simpa [Nat.add_assoc, Nat.add_comm 1 m] using this
    have hl1 : env.podGet (i + 1 + pre.length) = .ok last := by
      simpa [Nat.add_assoc, Nat.add_comm 1] using hl
    have hf1 : pre.length < f := by simp at hf; omega
    have hnt1 : ∀ q ∈ pre, ¬ Terminal q := fun q hq => hnt q (by simp [hq])
    by_cases hr : p = PodRunning
    · have hlog0 : env.logStream j = none := by
        simpa using hlogs 0 (by simp [hr])
      have hlogs1 : ∀ m, m < pre.count PodRunning → env.logStream (j + 1 + m) = none := by
        intro m h
        have := hlogs (m + 1) (by simp [hr]; omega)
        simpa [Nat.add_assoc, Nat.add_comm 1 m] using this
      have := ih (i + 1) (j + 1) p f hnt1 hreads1 hl1 hlogs1 hf1
      simp only [waitLoop, hp, if_neg hpnt, if_pos hr, hlog0, this, Option.map_some']
      simp [pollEvents, hr, Nat.add_assoc, Nat.add_comm 1]
    · have hlogs1 : ∀ m, m < pre.count PodRunning → env.logStream (j + m) = none := by
        intro m h
        exact hlogs m (by simpa [List.count_cons, hr] using h)
      have := ih (i + 1) j p f hnt1 hreads1 hl1 hlogs1 hf1
      simp only [waitLoop, hp, if_neg hpnt, if_neg hr, this, Option.map_some']
      simp [pollEvents, hr, List.count_cons]

theorem find?_eq_getElem_findIdx {α : Type} (p : α → Bool) :
    ∀ (l : List α) (h : l.findIdx p < l.length), l.find? p = some l[l.findIdx p]
  | [], h => by simp at h
  | a :: t, h => by
    by_cases hp : p a
    · simp [List.findIdx_cons, hp]
    · have hf : p a = false := by simpa using hp
      have h1 : t.findIdx p < t.length := by
        simp only [List.findIdx_cons, hf, cond_false, List.length_cons] at h
        omega
      simp [List.findIdx_cons, hf, find?_eq_getElem_findIdx p t h1]

/-- The supervision on a list of reads that contains a terminal phase. -/
theorem waitFor_on_reads (env : Env) (ns name : String) (phases : List PodPhase)
    (hreads : ∀ i (h : i < phases.length), env.podGet i = .ok phases[i])
    (hterm : ∃ p ∈ phases, Terminal p)
    (hlogs : ∀ j, j < (phases.take (phases.findIdx fun p => decide (Terminal p))).count PodRunning →
      env.logStream j = none)
    (fuel : Nat) (hfuel : (phases.findIdx fun p => decide (Terminal p)) < fuel) :
    ∃ last, phases.find? (fun p => decide (Terminal p)) = some last ∧
      waitForPodCompletionAndStreamLogs env fuel ns name =
        some ⟨((phases.take (phases.findIdx fun p => decide (Terminal p))).flatMap
            (pollEvents ns name)) ++
          (.podGet ns name ::
            deferred ((phases.take (phases.findIdx fun p => decide (Terminal p))).count PodRunning)),
          last, none⟩ := by
  set k := phases.findIdx fun p => decide (Terminal p) with hk
  have hklt : k < phases.length := by
    obtain ⟨p, hp, hpt⟩ := hterm
    exact List.findIdx_lt_length_of_exists ⟨p, hp, by simpa using hpt⟩
  refine ⟨phases[k], find?_eq_getElem_findIdx _ phases hklt, ?_⟩
  have hlast : Terminal phases[k] := by
    have := @List.findIdx_getElem _ (fun p => decide (Terminal p)) phases hklt
    simpa using this
  have hlen : (phases.take k).length = k := by
    simp [List.length_take]; omega
  have h := waitLoop_reaches env ns name phases[k] hlast (phases.take k) 0 0 "" fuel
    (by
      intro p hp
      obtain ⟨m, hm, rfl⟩ := List.getElem_of_mem hp
      have hmk : m < k := by simpa [hlen] using hm
      have := @List.not_of_lt_findIdx _ (fun p => decide (Terminal p)) phases m (hk ▸ hmk)
      simpa [List.getElem_take] using this)
    (by
      intro m hm
      have hmk : m < k := by simpa [hlen] using hm
      simpa [List.getElem_take] using hreads m (by omega))
    (by simpa [hlen] using hreads k hklt)
    (by simpa using hlogs)
    (by simpa [hlen] using hfuel)
  simpa [waitForPodCompletionAndStreamLogs] using h

theorem count_podGet_flatMap (ns name : String) (l : List PodPhase) :
    (l.flatMap (pollEvents ns name)).count (.podGet ns name) = l.length := by
  induction l with
  | nil => simp
  | cons p l ih =>
    simp only [List.flatMap_cons, List.count_append, count_podGet_pollEvents, ih, List.length_cons]
    omega

theorem count_logStream_flatMap (ns name : String) (l : List PodPhase) :
    (l.flatMap (pollEvents ns name)).count (.logStream ns name) = l.count PodRunning := by
  induction l with
  | nil => simp
  | cons p l ih =>
    simp only [List.flatMap_cons, List.count_append, count_logStream_pollEvents, ih,
      List.count_cons]
    by_cases hp : p = PodRunning
    · simp [hp]; omega
    · have : ¬ (p == PodRunning) = true := by simpa using hp
      simp [hp]

/-- C1 (amended): for every finite sequence of successfully read pod phases
that contains Succeeded or Failed, provided every log stream asked for on a
Running observation before it opens, the supervision returns with a nil error
the first Succeeded-or-Failed phase of the sequence, and when that phase is at
position k it has made exactly k + 1 pod reads. -/
theorem wait_returns_first_terminal (env : Env) (ns name : String) (phases : List PodPhase)
    (hreads : ∀ i (h : i < phases.length), env.podGet i = .ok phases[i])
    (hterm : ∃ p ∈ phases, Terminal p)
    (hlogs : ∀ j, j < (phases.take (phases.findIdx fun p => decide (Terminal p))).count PodRunning →
      env.logStream j = none)
    (fuel : Nat) (hfuel : (phases.findIdx fun p => decide (Terminal p)) < fuel) :
    ∃ r, waitForPodCompletionAndStreamLogs env fuel ns name = some r ∧ r.err = none ∧
      phases.find? (fun p => decide (Terminal p)) = some r.val ∧
      r.trace.count (.podGet ns name) = (phases.findIdx fun p => decide (Terminal p)) + 1 := by
  obtain ⟨last, hfind, hrun⟩ := waitFor_on_reads env ns name phases hreads hterm hlogs fuel hfuel
  refine ⟨_, hrun, rfl, hfind, ?_⟩
  have hklt : (phases.findIdx fun p => decide (Terminal p)) < phases.length := by
    obtain ⟨p, hp, hpt⟩ := hterm
    exact List.findIdx_lt_length_of_exists ⟨p, hp, by simpa using hpt⟩
  have hd := count_deferred (.podGet ns name) (by simp)
    ((phases.take (phases.findIdx fun p => decide (Terminal p))).count PodRunning)
  simp only [List.count_append, count_podGet_flatMap, List.count_cons_self, hd, List.length_take]
  omega

/-- C1, witness: the reads Pending, Pending, Running, Running, Succeeded with
the log streams opening return Succeeded after five reads, and a pod read as
Failed at once returns Failed after one read. -/
theorem wait_returns_first_terminal_witness :
    (∃ r, waitForPodCompletionAndStreamLogs
        (demoEnv alicePayload [PodPending, PodPending, PodRunning, PodRunning, PodSucceeded]
          fun _ => none) 5 "default" "kaniko-pod-abc" = some r ∧
      r.err = none ∧ r.val = PodSucceeded ∧
      r.trace.count (.podGet "default" "kaniko-pod-abc") = 5) ∧
    (∃ r, waitForPodCompletionAndStreamLogs
        (demoEnv alicePayload [PodFailed] fun _ => some "stream refused") 1
          "default" "kaniko-pod-abc" = some r ∧
      r.err = none ∧ r.val = PodFailed ∧
      r.trace.count (.podGet "default" "kaniko-pod-abc") = 1) := by
  constructor
  · obtain ⟨r, h1, h2, h3, h4⟩ := wait_returns_first_terminal
      (demoEnv alicePayload [PodPending, PodPending, PodRunning, PodRunning, PodSucceeded]
        fun _ => none) "default" "kaniko-pod-abc"
      [PodPending, PodPending, PodRunning, PodRunning, PodSucceeded]
      (by intro i h; simp [demoEnv, List.getElem?_eq_getElem h])
      ⟨PodSucceeded, by simp, Or.inl rfl⟩ (fun _ _ => rfl) 5 (by decide)
    have h5 : [PodPending, PodPending, PodRunning, PodRunning, PodSucceeded].find?
        (fun p => decide (Terminal p)) = some PodSucceeded := by decide
    have h6 : ([PodPending, PodPending, PodRunning, PodRunning, PodSucceeded].findIdx
        fun p => decide (Terminal p)) = 4 := by decide
    rw [h5] at h3
    rw [h6] at h4
    exact ⟨r, h1, h2, (Option.some.inj h3).symm, h4⟩
  · obtain ⟨r, h1, h2, h3, h4⟩ := wait_returns_first_terminal
      (demoEnv alicePayload [PodFailed] fun _ => some "stream refused") "default" "kaniko-pod-abc"
      [PodFailed]
      (by intro i h; simp [demoEnv, List.getElem?_eq_getElem h])
      ⟨PodFailed, by simp, Or.inr rfl⟩
      (by
        intro j hj
        rw [show ([PodFailed].findIdx fun p => decide (Terminal p)) = 0 from by decide] at hj
        simp at hj)
      1 (by decide)
    have h5 : [PodFailed].find? (fun p => decide (Terminal p)) = some PodFailed := by decide
    have h6 : ([PodFailed].findIdx fun p => decide (Terminal p)) = 0 := by decide
    rw [h5] at h3
    rw [h6] at h4
    exact ⟨r, h1, h2, (Option.some.inj h3).symm, h4⟩

/-- C1, counterexample: the reads Running, Succeeded are both successful and
contain Succeeded, yet when the log stream asked for on Running does not open
the supervision returns Running with that error after a single read. -/
theorem wait_log_failure_counterexample :
    (∀ i (h : i < [PodRunning, PodSucceeded].length),
      (demoEnv alicePayload [PodRunning, PodSucceeded] fun _ => some "stream refused").podGet i =
        .ok [PodRunning, PodSucceeded][i]) ∧
    (∃ p ∈ [PodRunning, PodSucceeded], Terminal p) ∧
    ∃ r, waitForPodCompletionAndStreamLogs
        (demoEnv alicePayload [PodRunning, PodSucceeded] fun _ => some "stream refused") 5
          "default" "kaniko-pod-abc" = some r ∧
      r.err = some "stream refused" ∧ r.val = PodRunning ∧
      r.trace.count (.podGet "default" "kaniko-pod-abc") = 1 := by
  refine ⟨by intro i h; simp [demoEnv, List.getElem?_eq_getElem h],
    ⟨PodSucceeded, by simp, Or.inl rfl⟩, ?_⟩
  exact ⟨_, rfl, rfl, rfl, by decide⟩

/-- C4 (amended): for every sequence of Pending and Running observations
followed by a terminal phase, with every log stream asked for opening, the
supervision opens one log stream for each Running observation: the number of
streams opened is the number of Running observations before the terminal
phase, which is none when Running is never observed. -/
theorem wait_opens_stream_per_running (env : Env) (ns name : String) (pre : List PodPhase)
    (last : PodPhase) (hpre : ∀ p ∈ pre, p = PodPending ∨ p = PodRunning)
    (hlast : Terminal last)
    (hreads : ∀ i (h : i < (pre ++ [last]).length), env.podGet i = .ok (pre ++ [last])[i])
    (hlogs : ∀ j, j < pre.count PodRunning → env.logStream j = none)
    (fuel : Nat) (hfuel : pre.length < fuel) :
    ∃ r, waitForPodCompletionAndStreamLogs env fuel ns name = some r ∧ r.err = none ∧
      r.val = last ∧ r.trace.count (.logStream ns name) = pre.count PodRunning ∧
      (PodRunning ∉ pre → r.trace.count (.logStream ns name) = 0) := by
  have h := waitLoop_reaches env ns name last hlast pre 0 0 "" fuel
    (by
      intro p hp
      rcases hpre p hp with rfl | rfl <;> decide)
    (by
      intro m hm
      have := hreads m (by simp; omega)
      simpa [List.getElem_append_left hm] using this)
    (by
      have := hreads pre.length (by simp)
      simpa using this)
    (by simpa using hlogs)
    hfuel
  have hd := count_deferred (.logStream ns name) (by simp) (0 + pre.count PodRunning)
  have hc : ((pre.flatMap (pollEvents ns name)) ++
      (.podGet ns name :: deferred (0 + pre.count PodRunning))).count (.logStream ns name) =
      pre.count PodRunning := by
    rw [List.count_append, count_logStream_flatMap, List.count_cons, hd]
    simp
  refine ⟨_, h, rfl, rfl, hc, ?_⟩
  intro hnot
  rw [hc]
  exact List.count_eq_zero.mpr hnot

/-- C4, witness: two log streams are opened on the reads Pending, Pending,
Running, Running, Succeeded, one for each Running observation. -/
theorem wait_opens_stream_per_running_witness :
    ∃ r, waitForPodCompletionAndStreamLogs
        (demoEnv alicePayload [PodPending, PodPending, PodRunning, PodRunning, PodSucceeded]
          fun _ => none) 5 "default" "kaniko-pod-abc" = some r ∧
      r.err = none ∧ r.val = PodSucceeded ∧
      r.trace.count (.logStream "default" "kaniko-pod-abc") = 2 := by
  obtain ⟨r, h1, h2, h3, h4, _⟩ := wait_opens_stream_per_running
    (demoEnv alicePayload [PodPending, PodPending, PodRunning, PodRunning, PodSucceeded]
      fun _ => none) "default" "kaniko-pod-abc"
    [PodPending, PodPending, PodRunning, PodRunning] PodSucceeded
    (by decide) (Or.inl rfl)
    (by
      intro i h
      have h5 : i < [PodPending, PodPending, PodRunning, PodRunning, PodSucceeded].length := by
        simpa using h
      simp [demoEnv, List.getElem?_eq_getElem h5])
    (fun _ _ => rfl) 5 (by decide)
  exact ⟨r, h1, h2, h3, by rw [h4]; decide⟩

/-- C4, counterexample: on the reads Pending, Pending, Running, Running,
Succeeded, Running is observed before the terminal phase and the number of log
streams opened is two, not one. -/
theorem wait_two_streams_counterexample :
    ∃ r, waitForPodCompletionAndStreamLogs
        (demoEnv alicePayload [PodPending, PodPending, PodRunning, PodRunning, PodSucceeded]
          fun _ => none) 5 "default" "kaniko-pod-abc" = some r ∧
      r.trace.count (.logStream "default" "kaniko-pod-abc") = 2 ∧
      r.trace.count (.logStream "default" "kaniko-pod-abc") ≠ 1 :=
  ⟨_, rfl, by decide, by decide⟩

/-! ## The build pipeline -/

theorem getDockerUsername_trace (env : Env) (ns : String) :
    (getDockerUsername env ns).trace = [.secretGet ns secretName] := by
  unfold getDockerUsername
  repeat' split
  all_goals rfl

theorem clusterWrites_deferred (n : Nat) : clusterWrites (deferred n) = [] := by
  unfold clusterWrites deferred
  rw [List.filter_eq_nil_iff]
  intro e he
  rw [List.eq_of_mem_replicate he]
  simp [Event.isWrite]

theorem waitLoop_writes (env : Env) (ns name : String) :
    ∀ (fuel i j : Nat) (status : PodPhase) (r : Ret PodPhase),
      waitLoop env ns name fuel i j status = some r → clusterWrites r.trace = [] := by
  intro fuel
  induction fuel with
  | zero => intro i j status r h; simp [waitLoop] at h
  | succ f ih =>
    intro i j status r h
    rw [waitLoop] at h
    rcases hp : env.podGet i with e | phase
    · simp only [hp, Option.some.injEq] at h
      subst h
      simpa [clusterWrites, Event.isWrite] using clusterWrites_deferred j
    · simp only [hp] at h
      by_cases ht : phase = PodSucceeded ∨ phase = PodFailed
      · simp only [if_pos ht, Option.some.injEq] at h
        subst h
        simpa [clusterWrites, Event.isWrite] using clusterWrites_deferred j
      · simp only [if_neg ht] at h
        by_cases hr : phase = PodRunning
        · simp only [if_pos hr] at h
          rcases hl : env.logStream j with _ | e
          · simp only [hl] at h
            rcases hw : waitLoop env ns name f (i + 1) (j + 1) phase with _ | r1
            · simp [hw] at h
            · simp only [hw, Option.map_some', Option.some.injEq] at h
              subst h
              simpa [clusterWrites, Event.isWrite, List.filter_cons] using ih _ _ _ _ hw
          · simp only [hl, Option.some.injEq] at h
            subst h
            simpa [clusterWrites, Event.isWrite, List.filter_cons] using clusterWrites_deferred j
        · simp only [if_neg hr] at h
          rcases hw : waitLoop env ns name f (i + 1) j phase with _ | r1
          · simp [hw] at h
          · simp only [hw, Option.map_some', Option.some.injEq] at h
            subst h
            simpa [clusterWrites, Event.isWrite, List.filter_cons] using ih _ _ _ _ hw

theorem applyPod_writes (env : Env) (ns podName vol userName repo tag : String) :
    (clusterWrites (applyPod env ns podName vol userName repo tag).trace = [] ∧
      (applyPod env ns podName vol userName repo tag).err ≠ none) ∨
    clusterWrites (applyPod env ns podName vol userName repo tag).trace =
      [.podCreate ns (kanikoPod podName vol userName repo tag env.getwd.1)] := by
  unfold applyPod
  rcases hg : env.getwd.2 with _ | e
  · simp only [hg]
    rcases hc : env.podCreate ns (kanikoPod podName vol userName repo tag env.getwd.1) with e | c
    · right; simp [clusterWrites, Event.isWrite, List.filter_cons]
    · right; simp [clusterWrites, Event.isWrite, List.filter_cons]
  · left; simp [hg, clusterWrites, Event.isWrite]

/-- The cluster writes of a run of the build: none, or the one pod create
call, whose pod carries the generated name and the resolved identity. -/
theorem BuildKaniko_writes (env : Env) (fuel : Nat) (repo tag : String) (r : Run)
    (h : BuildKaniko env fuel repo tag = some r) :
    (clusterWrites r.trace = [] ∧ r.exit ≠ .returned none) ∨
    ∃ podName, generateRandomName env.randInt podNamePrefix nameLength = some podName ∧
      clusterWrites r.trace =
        [.podCreate namespace_ (kanikoPod podName volumeMountName
          (getDockerUsername env namespace_).val repo tag env.getwd.1)] := by
  have hu : clusterWrites (getDockerUsername env namespace_).trace = [] := by
    rw [getDockerUsername_trace]; simp [clusterWrites, Event.isWrite]
  unfold BuildKaniko at h
  rcases hrc : env.rawConfig with e | ctx
  · simp only [hrc, Option.some.injEq] at h
    subst h; left; simp [clusterWrites]
  simp only [hrc] at h
  rcases hcc : env.clientConfig with _ | e
  swap
  · simp only [hcc, Option.some.injEq] at h
    subst h; left; simp [clusterWrites, Event.isWrite]
  simp only [hcc] at h
  rcases hnc : env.newForConfig with _ | e
  swap
  · simp only [hnc, Option.some.injEq] at h
    subst h; left; simp [clusterWrites, Event.isWrite]
  simp only [hnc] at h
  rcases hue : (getDockerUsername env namespace_).err with _ | e
  swap
  · simp only [hue, Option.some.injEq] at h
    subst h; left
    simp only [clusterWrites, List.filter_append] at hu ⊢
    simp [hu, Event.isWrite]
  simp only [hue] at h
  rcases hname : generateRandomName env.randInt podNamePrefix nameLength with _ | podName
  · simp only [hname, Option.some.injEq] at h
    subst h; left
    simp only [clusterWrites, List.filter_append] at hu ⊢
    simp [hu, Event.isWrite]
  simp only [hname] at h
  have ha := applyPod_writes env namespace_ podName volumeMountName
    (getDockerUsername env namespace_).val repo tag
  rcases hae : (applyPod env namespace_ podName volumeMountName
    (getDockerUsername env namespace_).val repo tag).err with _ | e
  swap
  · simp only [hae, Option.some.injEq] at h
    subst h
    rcases ha with ⟨ha, _⟩ | ha
    · left
      simp only [clusterWrites, List.filter_append] at hu ha ⊢
      simp [hu, ha, Event.isWrite]
    · right
      refine ⟨podName, rfl, ?_⟩
      simp only [clusterWrites, List.filter_append] at hu ha ⊢
      simp [hu, ha, Event.isWrite]
  simp only [hae] at h
  have ha1 : clusterWrites (applyPod env namespace_ podName volumeMountName
      (getDockerUsername env namespace_).val repo tag).trace =
      [.podCreate namespace_ (kanikoPod podName volumeMountName
        (getDockerUsername env namespace_).val repo tag env.getwd.1)] := by
    rcases ha with ⟨_, ha⟩ | ha
    · exact absurd hae ha
    · exact ha
  rcases hw : waitForPodCompletionAndStreamLogs env fuel namespace_ podName with _ | w
  · simp [hw] at h
  simp only [hw] at h
  have hww : clusterWrites w.trace = [] := waitLoop_writes env _ _ _ _ _ _ _ hw
  rcases hwe : w.err with _ | e
  · simp only [hwe, Option.some.injEq] at h
    subst h; right
    refine ⟨podName, rfl, ?_⟩
    simp only [clusterWrites, List.filter_append] at hu ha1 hww ⊢
    simp [hu, ha1, hww, Event.isWrite]
  · simp only [hwe, Option.some.injEq] at h
    subst h; right
    refine ⟨podName, rfl, ?_⟩
    simp only [clusterWrites, List.filter_append] at hu ha1 hww ⊢
    simp [hu, ha1, hww, Event.isWrite]

theorem buildDeploy_some (env : Env) (fuel : Nat) (repo rawTag : String) (r : Run)
    (h : buildDeploy env fuel repo rawTag = some r) :
    ∃ r0, BuildKaniko env fuel repo (getOrDefault rawTag "latest") = some r0 ∧
      r0.trace = r.trace := by
  unfold buildDeploy at h
  rcases hb : BuildKaniko env fuel repo (getOrDefault rawTag "latest") with _ | r0
  · simp [hb] at h
  · refine ⟨r0, rfl, ?_⟩
    simp only [hb] at h
    rcases hx : r0.exit with e | m
    · rcases e with _ | e
      · simp only [hx, Option.some.injEq] at h
        subst h; rfl
      · simp only [hx, Option.some.injEq] at h
        subst h; rfl
    · simp only [hx, Option.some.injEq] at h
      subst h; rfl

/-- C2 (amended): in every run in which configuration load, credential
resolution, pod creation and supervision complete without error, the build
returns a nil error whatever the terminal phase is, Succeeded and Failed
alike; the phase only selects the last line printed, and the command returns
without a panic, so that a failed build does not make the process exit
non-zero. -/
theorem build_returns_nil_on_any_phase (env : Env) (fuel : Nat) (repo rawTag ctx podName : String)
    (w : Ret PodPhase)
    (hraw : env.rawConfig = .ok ctx) (hclient : env.clientConfig = none)
    (hset : env.newForConfig = none)
    (huser : (getDockerUsername env namespace_).err = none)
    (hname : generateRandomName env.randInt podNamePrefix nameLength = some podName)
    (hpod : (applyPod env namespace_ podName volumeMountName
      (getDockerUsername env namespace_).val repo (getOrDefault rawTag "latest")).err = none)
    (hwait : waitForPodCompletionAndStreamLogs env fuel namespace_ podName = some w)
    (hmon : w.err = none) :
    ∃ tr, BuildKaniko env fuel repo (getOrDefault rawTag "latest") =
        some ⟨tr ++ [.printed (if w.val = PodSucceeded then "Build uploaded successfully.\n"
          else "Build failed.\n")], .returned none⟩ ∧
      buildDeploy env fuel repo rawTag =
        some ⟨tr ++ [.printed (if w.val = PodSucceeded then "Build uploaded successfully.\n"
          else "Build failed.\n")], .returned none⟩ := by
  have hb : BuildKaniko env fuel repo (getOrDefault rawTag "latest") =
      some ⟨[.printed ("Using Kubernetes context: " ++ ctx ++ "\n")] ++
        (getDockerUsername env namespace_).trace ++
        (applyPod env namespace_ podName volumeMountName
          (getDockerUsername env namespace_).val repo (getOrDefault rawTag "latest")).trace ++
        w.trace ++ [.printed (if w.val = PodSucceeded then "Build uploaded successfully.\n"
          else "Build failed.\n")], .returned none⟩ := by
    unfold BuildKaniko
    simp only [hraw, hclient, hset, huser, hname, hpod, hwait, hmon]
  refine ⟨_, hb, ?_⟩
  unfold buildDeploy
  simp only [hb]

/-- C2, witness: the build of `myapp` whose pod is read as Failed runs all
its stages without error and returns nil, printing the failure line last. -/
theorem build_returns_nil_on_any_phase_witness :
    ∃ tr, BuildKaniko (demoEnv alicePayload [PodFailed] fun _ => none) 1 "myapp"
        (getOrDefault "" "latest") =
        some ⟨tr ++ [.printed "Build failed.\n"], .returned none⟩ ∧
      buildDeploy (demoEnv alicePayload [PodFailed] fun _ => none) 1 "myapp" "" =
        some ⟨tr ++ [.printed "Build failed.\n"], .returned none⟩ :=
  build_returns_nil_on_any_phase (demoEnv alicePayload [PodFailed] fun _ => none) 1 "myapp" ""
    "minikube" "kaniko-pod-dkry5cjqx4"
    ⟨[.podGet "default" "kaniko-pod-dkry5cjqx4"], PodFailed, none⟩
    rfl rfl rfl (by decide) (by decide) (by decide) rfl rfl

/-- C2, counterexample: every stage of this build completes without error
and the terminal phase of its pod is Failed, yet the error returned is nil
and the command returns without a panic. -/
theorem build_failed_returns_nil_counterexample :
    (getDockerUsername (demoEnv alicePayload [PodFailed] fun _ => none) namespace_).err = none ∧
    (applyPod (demoEnv alicePayload [PodFailed] fun _ => none) namespace_ "kaniko-pod-dkry5cjqx4"
      volumeMountName "alice" "myapp" "latest").err = none ∧
    (waitForPodCompletionAndStreamLogs (demoEnv alicePayload [PodFailed] fun _ => none) 1
      namespace_ "kaniko-pod-dkry5cjqx4").map (fun w => (w.val, w.err)) =
        some (PodFailed, none) ∧
    (BuildKaniko (demoEnv alicePayload [PodFailed] fun _ => none) 1 "myapp" "latest").map
      (fun r => r.exit) = some (.returned none) ∧
    (buildDeploy (demoEnv alicePayload [PodFailed] fun _ => none) 1 "myapp" "").map
      (fun r => r.exit) = some (.returned none) := by
  refine ⟨by decide, by decide, by decide, by decide, by decide⟩

/-- C3: a build that runs to the end and succeeds issues a single cluster
write, the pod create call; no ConfigMap is created before it, although the
workspace volume of the pod refers to a ConfigMap named after the working
directory. -/
theorem build_creates_no_artifact :
    (BuildKaniko (demoEnv alicePayload [PodSucceeded] fun _ => none) 1 "myapp" "latest").map
      (fun r => (r.exit, clusterWrites r.trace)) =
      some (.returned none,
        [.podCreate "default" (kanikoPod "kaniko-pod-dkry5cjqx4" "dockerfile-config" "alice"
          "myapp" "latest" "/home/dev/myapp")]) ∧
    (kanikoPod "kaniko-pod-dkry5cjqx4" "dockerfile-config" "alice" "myapp" "latest"
      "/home/dev/myapp").Spec.Volumes.map (fun v => v.Source) =
      [.ConfigMap "/home/dev/myapp",
        .Secret "dockercred" [{ Key := ".dockerconfigjson", Path := "config.json" }]] := by
  refine ⟨by decide, by decide⟩

/-- The pod create call of `applyPod` is issued whenever the working
directory is known, whether or not the cluster then accepts the pod. -/
theorem applyPod_submits (env : Env) (ns podName vol userName repo tag : String)
    (hwd : env.getwd.2 = none) :
    clusterWrites (applyPod env ns podName vol userName repo tag).trace =
      [.podCreate ns (kanikoPod podName vol userName repo tag env.getwd.1)] := by
  unfold applyPod
  simp only [hwd]
  rcases hc : env.podCreate ns (kanikoPod podName vol userName repo tag env.getwd.1) with e | c
  · simp [clusterWrites, Event.isWrite, List.filter_cons]
  · simp [clusterWrites, Event.isWrite, List.filter_cons]

/-- A build that reaches pod creation and whose supervision returns: it
returns, and its one cluster write is the create call of the pod made from
the resolved identity, the repo and the tag it was given. -/
theorem BuildKaniko_submits (env : Env) (fuel : Nat) (repo tag ctx podName : String)
    (w : Ret PodPhase)
    (hraw : env.rawConfig = .ok ctx) (hclient : env.clientConfig = none)
    (hset : env.newForConfig = none)
    (huser : (getDockerUsername env namespace_).err = none)
    (hname : generateRandomName env.randInt podNamePrefix nameLength = some podName)
    (hwd : env.getwd.2 = none)
    (hwait : waitForPodCompletionAndStreamLogs env fuel namespace_ podName = some w) :
    ∃ r, BuildKaniko env fuel repo tag = some r ∧
      clusterWrites r.trace =
        [.podCreate namespace_ (kanikoPod podName volumeMountName
          (getDockerUsername env namespace_).val repo tag env.getwd.1)] := by
  have hu : clusterWrites (getDockerUsername env namespace_).trace = [] := by
    rw [getDockerUsername_trace]; simp [clusterWrites, Event.isWrite]
  have ha := applyPod_submits env namespace_ podName volumeMountName
    (getDockerUsername env namespace_).val repo tag hwd
  have hww : clusterWrites w.trace = [] := waitLoop_writes env _ _ _ _ _ _ _ hwait
  unfold BuildKaniko
  simp only [hraw, hclient, hset, huser, hname]
  rcases hae : (applyPod env namespace_ podName volumeMountName
    (getDockerUsername env namespace_).val repo tag).err with _ | e
  · simp only [hwait]
    rcases hwe : w.err with _ | e
    · refine ⟨_, rfl, ?_⟩
      simp only [clusterWrites, List.filter_append] at hu ha hww ⊢
      simp [hu, ha, hww, Event.isWrite]
    · refine ⟨_, rfl, ?_⟩
      simp only [clusterWrites, List.filter_append] at hu ha hww ⊢
      simp [hu, ha, hww, Event.isWrite]
  · refine ⟨_, rfl, ?_⟩
    simp only [clusterWrites, List.filter_append] at hu ha ⊢
    simp [hu, ha, Event.isWrite]

/-- The command returns whenever the build does, with the same events. -/
theorem buildDeploy_of_build (env : Env) (fuel : Nat) (repo rawTag : String) (r0 : Run)
    (h : BuildKaniko env fuel repo (getOrDefault rawTag "latest") = some r0) :
    ∃ r, buildDeploy env fuel repo rawTag = some r ∧ r.trace = r0.trace := by
  unfold buildDeploy
  simp only [h]
  rcases hx : r0.exit with e | m
  · rcases e with _ | e
    · exact ⟨_, rfl, rfl⟩
    · exact ⟨_, rfl, rfl⟩
  · exact ⟨_, rfl, rfl⟩

/-- C8: for every identity, repo and raw tag, the pod that `applyPod` hands to
the create call, which it issues whenever the working directory is known,
carries as its third argument the destination made of the identity, the repo
and the tag; and a run of the command with that raw tag that resolves the
identity and reaches pod creation makes exactly one cluster write, the create
call of a pod whose destination argument carries `latest` as tag when the raw
tag is empty and the raw tag otherwise. -/
theorem destination_argument (env : Env) (identity repo rawTag : String) :
    (∀ ns podName vol tag, env.getwd.2 = none →
      ∃ pod, clusterWrites (applyPod env ns podName vol identity repo tag).trace =
          [.podCreate ns pod] ∧
        pod.Spec.Containers.map (fun c => c.Args) =
          [["--dockerfile=/workspace/Dockerfile", "--context=dir:///workspace/",
            "--destination=" ++ identity ++ "/" ++ repo ++ ":" ++ tag]]) ∧
    (∀ fuel ctx podName w,
      env.rawConfig = .ok ctx → env.clientConfig = none → env.newForConfig = none →
      (getDockerUsername env namespace_).err = none →
      (getDockerUsername env namespace_).val = identity →
      generateRandomName env.randInt podNamePrefix nameLength = some podName →
      env.getwd.2 = none →
      waitForPodCompletionAndStreamLogs env fuel namespace_ podName = some w →
      ∃ r pod, buildDeploy env fuel repo rawTag = some r ∧
        clusterWrites r.trace = [.podCreate namespace_ pod] ∧
        pod.Spec.Containers.map (fun c => c.Args) =
          [["--dockerfile=/workspace/Dockerfile", "--context=dir:///workspace/",
            "--destination=" ++ identity ++ "/" ++ repo ++ ":" ++
              (if rawTag = "" then "latest" else rawTag)]]) := by
  constructor
  · intro ns podName vol tag hwd
    exact ⟨_, applyPod_submits env ns podName vol identity repo tag hwd, by simp [kanikoPod]⟩
  · intro fuel ctx podName w hraw hclient hset huser hid hname hwd hwait
    obtain ⟨r0, hb, hw0⟩ := BuildKaniko_submits env fuel repo (getOrDefault rawTag "latest")
      ctx podName w hraw hclient hset huser hname hwd hwait
    obtain ⟨r, hr, htr⟩ := buildDeploy_of_build env fuel repo rawTag r0 hb
    refine ⟨r, _, hr, by rw [htr]; exact hw0, ?_⟩
    simp [kanikoPod, getOrDefault, hid]

/-- C8, witness: the command run with repo `myapp` and an empty tag, the
identity resolved being `alice`, creates one pod, whose destination argument
is `--destination=alice/myapp:latest`. -/
theorem destination_argument_witness :
    ∃ r pod, buildDeploy (demoEnv alicePayload [PodSucceeded] fun _ => none) 1 "myapp" "" =
        some r ∧
      clusterWrites r.trace = [.podCreate "default" pod] ∧
      pod.Spec.Containers.map (fun c => c.Args) =
        [["--dockerfile=/workspace/Dockerfile", "--context=dir:///workspace/",
          "--destination=alice/myapp:latest"]] := by
  obtain ⟨r, pod, h1, h2, h3⟩ :=
    (destination_argument (demoEnv alicePayload [PodSucceeded] fun _ => none)
      "alice" "myapp" "").2 1 "minikube" "kaniko-pod-dkry5cjqx4"
      ⟨[.podGet "default" "kaniko-pod-dkry5cjqx4"], PodSucceeded, none⟩
      rfl rfl rfl (by decide) (by decide) (by decide) rfl rfl
  exact ⟨r, pod, h1, h2, by rw [h3]; decide⟩

/-! ## The credential resolver -/

/-- When no registry entry is an object the loop ends with the error. -/
theorem rangeAuths_no_object (auths : List (String × JValue))
    (h : ∀ e ∈ auths, ∀ m, e.2 ≠ JValue.obj m) :
    rangeAuths auths = ("", some "username not found in Docker config") := by
  induction auths with
  | nil => rfl
  | cons e rest ih =>
    obtain ⟨k, v⟩ := e
    have hv : ∀ m, v ≠ JValue.obj m := h (k, v) (by simp)
    have hrest := ih (fun e he => h e (by simp [he]))
    cases v with
    | obj m => exact absurd rfl (hv m)
    | null => simpa [rangeAuths] using hrest
    | bool b => simpa [rangeAuths] using hrest
    | num l => simpa [rangeAuths] using hrest
    | str t => simpa [rangeAuths] using hrest
    | arr items => simpa [rangeAuths] using hrest

/-- C5: on a payload whose only registry entry is an object without a
username, and on one whose entry carries a number as username, the resolver
returns the empty identity with a nil error, not the error that the username
was not found. -/
theorem anonymous_entry_resolves_empty :
    ((demoEnv anonymousPayload [] fun _ => none).unmarshal anonymousPayload =
        .ok [("auths", .obj [("registry.example.com", .obj [])])] ∧
      (getDockerUsername (demoEnv anonymousPayload [] fun _ => none) "default").val = "" ∧
      (getDockerUsername (demoEnv anonymousPayload [] fun _ => none) "default").err = none) ∧
    ((demoEnv numericPayload [] fun _ => none).unmarshal numericPayload =
        .ok [("auths", .obj [("registry.example.com", .obj [("username", .num "42")])])] ∧
      (getDockerUsername (demoEnv numericPayload [] fun _ => none) "default").val = "" ∧
      (getDockerUsername (demoEnv numericPayload [] fun _ => none) "default").err = none) := by
  refine ⟨⟨rfl, by decide, by decide⟩, ⟨rfl, by decide, by decide⟩⟩

/-- C6: for every registry host and username, a secret whose payload decodes
to an `auths` object with that single registry entry, itself an object with
that username, resolves to the username with a nil error. -/
theorem single_entry_resolves_username (env : Env) (ns : String) (secret : Secret)
    (data registry username : String)
    (hsecret : env.secretGet ns secretName = .ok secret)
    (hdata : secret.Data.lookup ".dockerconfigjson" = some data)
    (hdoc : env.unmarshal data =
      .ok [("auths", .obj [(registry, .obj [("username", .str username)])])]) :
    (getDockerUsername env ns).val = username ∧ (getDockerUsername env ns).err = none := by
  unfold getDockerUsername
  simp only [hsecret, hdata, hdoc]
  simp [List.lookup, rangeAuths]

/-- C6, witness: the payload of the specification resolves to `alice`. -/
theorem single_entry_resolves_username_witness :
    (getDockerUsername (demoEnv alicePayload [] fun _ => none) "default").val = "alice" ∧
    (getDockerUsername (demoEnv alicePayload [] fun _ => none) "default").err = none :=
  single_entry_resolves_username (demoEnv alicePayload [] fun _ => none) "default"
    ⟨[(".dockerconfigjson", alicePayload)]⟩ alicePayload "registry.example.com" "alice"
    rfl rfl rfl

/-- C7: when the payload decodes to an object whose `auths` key is missing or
whose `auths` value is not an object, the resolver fails with the error that
`auths` was not found and returns the empty identity. -/
theorem auths_missing_or_not_object (env : Env) (ns : String) (secret : Secret) (data : String)
    (doc : List (String × JValue))
    (hsecret : env.secretGet ns secretName = .ok secret)
    (hdata : secret.Data.lookup ".dockerconfigjson" = some data)
    (hdoc : env.unmarshal data = .ok doc)
    (hauths : doc.lookup "auths" = none ∨
      ∃ v, doc.lookup "auths" = some v ∧ ∀ entries, v ≠ JValue.obj entries) :
    (getDockerUsername env ns).err = some "auths not found in Docker config" ∧
      (getDockerUsername env ns).val = "" := by
  unfold getDockerUsername
  simp only [hsecret, hdata, hdoc]
  rcases hauths with h | ⟨v, h, hv⟩
  · simp [h]
  · cases v with
    | obj m => exact absurd rfl (hv m)
    | null => simp [h]
    | bool b => simp [h]
    | num l => simp [h]
    | str t => simp [h]
    | arr items => simp [h]

/-- C7, witness: a payload without `auths` and a payload whose `auths` is a
string both fail with the error that `auths` was not found. -/
theorem auths_missing_or_not_object_witness :
    ((getDockerUsername (demoEnv noAuthsPayload [] fun _ => none) "default").err =
        some "auths not found in Docker config" ∧
      (getDockerUsername (demoEnv noAuthsPayload [] fun _ => none) "default").val = "") ∧
    ((getDockerUsername (demoEnv stringAuthsPayload [] fun _ => none) "default").err =
        some "auths not found in Docker config" ∧
      (getDockerUsername (demoEnv stringAuthsPayload [] fun _ => none) "default").val = "") :=
  ⟨auths_missing_or_not_object (demoEnv noAuthsPayload [] fun _ => none) "default"
      ⟨[(".dockerconfigjson", noAuthsPayload)]⟩ noAuthsPayload [] rfl rfl rfl (Or.inl rfl),
    auths_missing_or_not_object (demoEnv stringAuthsPayload [] fun _ => none) "default"
      ⟨[(".dockerconfigjson", stringAuthsPayload)]⟩ stringAuthsPayload
      [("auths", .str "none")] rfl rfl rfl
      (Or.inr ⟨.str "none", rfl, fun _ h => JValue.noConfusion h⟩)⟩

/-! ## Generated names -/

theorem chars_length : chars.data.length = 36 := by decide

theorem chars_lower_or_digit : ∀ c ∈ chars.data, (c.isLower || c.isDigit) = true := by decide

theorem chars_one_byte : ∀ c ∈ chars.data, c.utf8Size = 1 := by decide

/-- A string over the alphabet takes one byte for each character. -/
theorem utf8Len_of_chars (l : List Char) (h : ∀ c ∈ l, c ∈ chars.data) :
    String.utf8Len l = l.length := by
  induction l with
  | nil => rfl
  | cons c l ih =>
    rw [String.utf8Len_cons, ih (fun d hd => h d (by simp [hd])),
      chars_one_byte c (h c (by simp)), List.length_cons]

/-- What a completed run of the loop has written after `name`. -/
theorem writeRandom_some (draws : Nat → Option Nat) :
    ∀ (n i : Nat) (name out : String), writeRandom draws n i name = some out →
      ∃ suffix : List Char, suffix.length = n ∧ out = name ++ String.mk suffix ∧
        ∀ k (h : k < suffix.length), ∃ d, draws (i + k) = some d ∧
          chars.data[d]? = some suffix[k] := by
  intro n
  induction n with
  | zero =>
    intro i name out h
    simp only [writeRandom, Option.some.injEq] at h
    subst h
    exact ⟨[], rfl, by apply String.ext; simp, by intro k h; simp at h⟩
  | succ n ih =>
    intro i name out h
    rw [writeRandom] at h
    rcases hd : draws i with _ | d
    · simp [hd] at h
    · simp only [hd, List.get?_eq_getElem?] at h
      rcases hc : chars.data[d]? with _ | c
      · simp [hc] at h
      · simp only [hc] at h
        obtain ⟨suffix, hlen, hout, hk⟩ := ih (i + 1) (name.push c) out h
        refine ⟨c :: suffix, by simp [hlen], ?_, ?_⟩
        · rw [hout]
          apply String.ext
          simp
        · intro k h
          cases k with
          | zero => exact ⟨d, by simpa using hd, by simpa using hc⟩
          | succ k =>
            obtain ⟨d1, h1, h2⟩ := hk k (by simpa using h)
            exact ⟨d1, by simpa [Nat.add_assoc, Nat.add_comm 1 k] using h1, by simpa using h2⟩

/-- The loop completes when every draw it makes succeeds with an index below 36. -/
theorem writeRandom_total (draws : Nat → Option Nat) :
    ∀ (n i : Nat) (name : String),
      (∀ k, k < n → ∃ d, draws (i + k) = some d ∧ d < 36) →
      ∃ out, writeRandom draws n i name = some out := by
  intro n
  induction n with
  | zero => intro i name _; exact ⟨name, rfl⟩
  | succ n ih =>
    intro i name h
    obtain ⟨d, hd, hlt⟩ := h 0 (by omega)
    have hc : chars.data[d]? = some chars.data[d] :=
      List.getElem?_eq_getElem (by rw [chars_length]; exact hlt)
    have hrest : ∀ k, k < n → ∃ d, draws (i + 1 + k) = some d ∧ d < 36 := by
      intro k hk
      obtain ⟨d1, h1, h2⟩ := h (k + 1) (by omega)
      exact ⟨d1, by simpa [Nat.add_assoc, Nat.add_comm 1 k] using h1, h2⟩
    obtain ⟨out, hout⟩ := ih (i + 1) (name.push chars.data[d]) hrest
    refine ⟨out, ?_⟩
    rw [writeRandom]
    simp only [Nat.add_zero] at hd
    simp only [hd, List.get?_eq_getElem?, hc]
    exact hout

/-- C10: for every name start, every length n that is not negative and every
outcome of the random source whose first n draws are indices below 36, the
generated name is the start followed by n characters (so its length, in
characters and in bytes, is that of the start plus n), the i-th being the
character of the alphabet a-z0-9 at the i-th drawn index; and the name of the
pod that a build creates is `kaniko-pod-` followed by exactly 10 characters
that are lowercase letters or digits. -/
theorem generated_name (draws : Nat → Option Nat) (idx : Nat → Nat) (pfx : String)
    (length : Int) (hlength : 0 ≤ length)
    (hdraws : ∀ i : Nat, (i : Int) < length → draws i = some (idx i) ∧ idx i < 36) :
    (∃ suffix : List Char,
      generateRandomName draws pfx length = some (pfx ++ String.mk suffix) ∧
      (suffix.length : Int) = length ∧
      (pfx ++ String.mk suffix).length = pfx.length + suffix.length ∧
      (pfx ++ String.mk suffix).utf8ByteSize = pfx.utf8ByteSize + suffix.length ∧
      (∀ i (h : i < suffix.length), chars.data[idx i]? = some suffix[i]) ∧
      (∀ c ∈ suffix, c ∈ chars.data ∧ (c.isLower || c.isDigit) = true)) ∧
    (∀ (env : Env) (fuel : Nat) (repo tag : String) (r : Run) (ns : String) (pod : Pod),
      BuildKaniko env fuel repo tag = some r → Event.podCreate ns pod ∈ r.trace →
      ∃ suffix : List Char, pod.Name = "kaniko-pod-" ++ String.mk suffix ∧
        suffix.length = 10 ∧ ∀ c ∈ suffix, c ∈ chars.data ∧ (c.isLower || c.isDigit) = true) := by
  have hmem : ∀ (ds : Nat → Option Nat) (i : Nat) (suffix : List Char),
      (∀ k (h : k < suffix.length), ∃ d, ds (i + k) = some d ∧
        chars.data[d]? = some suffix[k]) →
      ∀ c ∈ suffix, c ∈ chars.data ∧ (c.isLower || c.isDigit) = true := by
    intro ds i suffix hk c hc
    obtain ⟨k, hklt, rfl⟩ := List.getElem_of_mem hc
    obtain ⟨d, _, hd⟩ := hk k hklt
    have hin : suffix[k] ∈ chars.data := List.getElem?_mem hd
    exact ⟨hin, chars_lower_or_digit _ hin⟩
  constructor
  · have htot := writeRandom_total draws length.toNat 0 pfx (by
      intro k hk
      have := hdraws k (by omega)
      exact ⟨idx k, by simpa using this.1, this.2⟩)
    obtain ⟨out, hout⟩ := htot
    obtain ⟨suffix, hlen, heq, hk⟩ := writeRandom_some draws _ _ _ _ hout
    refine ⟨suffix, by rw [generateRandomName, hout, heq], by omega,
      by rw [String.length_append]; rfl, ?_, ?_, hmem draws 0 suffix hk⟩
    · have h1 : (pfx ++ String.mk suffix).utf8ByteSize = String.utf8Len (pfx.data ++ suffix) := rfl
      have h2 : pfx.utf8ByteSize = String.utf8Len pfx.data := rfl
      rw [h1, h2, String.utf8Len_append,
        utf8Len_of_chars suffix (fun c hc => (hmem draws 0 suffix hk c hc).1)]
    intro i h
    obtain ⟨d, h1, h2⟩ := hk i h
    have := (hdraws i (by omega)).1
    simp only [Nat.zero_add] at h1
    rw [this] at h1
    cases h1
    exact h2
  · intro env fuel repo tag r ns pod hrun hmemtr
    have hw : Event.podCreate ns pod ∈ clusterWrites r.trace := by
      unfold clusterWrites
      exact List.mem_filter.mpr ⟨hmemtr, rfl⟩
    rcases BuildKaniko_writes env fuel repo tag r hrun with ⟨h0, _⟩ | ⟨podName, hname, h1⟩
    · rw [h0] at hw; simp at hw
    · rw [h1] at hw
      simp only [List.mem_singleton, Event.podCreate.injEq] at hw
      obtain ⟨suffix, hlen, heq, hk⟩ := writeRandom_some env.randInt _ _ _ _ hname
      refine ⟨suffix, ?_, by simpa [nameLength] using hlen, hmem env.randInt 0 suffix hk⟩
      rw [hw.2]
      simpa [kanikoPod, podNamePrefix] using heq

/-- C10, witness: the draws 3, 10, 17, 24, 31, 2, 9, 16, 23, 30 give the name
`kaniko-pod-dkry5cjqx4`. -/
theorem generated_name_witness :
    ∃ suffix : List Char,
      generateRandomName (fun i => some ((7 * i + 3) % 36)) "kaniko-pod-" 10 =
        some ("kaniko-pod-" ++ String.mk suffix) ∧
      (suffix.length : Int) = 10 ∧
      ("kaniko-pod-" ++ String.mk suffix).length = "kaniko-pod-".length + suffix.length ∧
      ("kaniko-pod-" ++ String.mk suffix).utf8ByteSize =
        "kaniko-pod-".utf8ByteSize + suffix.length ∧
      (∀ i (h : i < suffix.length), chars.data[(7 * i + 3) % 36]? = some suffix[i]) ∧
      (∀ c ∈ suffix, c ∈ chars.data ∧ (c.isLower || c.isDigit) = true) :=
  (generated_name (fun i => some ((7 * i + 3) % 36)) (fun i => (7 * i + 3) % 36) "kaniko-pod-" 10
    (by decide) (fun i _ => ⟨rfl, Nat.mod_lt _ (by decide)⟩)).1

/-! ## The artifact stager -/

mutual
theorem walk_healthy : ∀ (node : Node) (path : List String) (files : List (String × Bytes)),
    node.healthy = true → walk path node files = .ok (node.files.foldl (store path) files)
  | .missing _, _, _, h => by simp [Node.healthy] at h
  | .file _ (.ok content), path, files, _ => by
    simp [walk, walkFn, Node.files, store]
  | .file _ (.error _), _, _, h => by simp [Node.healthy] at h
  | .dir (some _) _, _, _, h => by simp [Node.healthy] at h
  | .dir none entries, path, files, h => by
    have := walkEntries_healthy entries path files (by simpa [Node.healthy] using h)
    simp [walk, walkFn, Node.files, this]
theorem walkEntries_healthy : ∀ (entries : Entries) (path : List String)
    (files : List (String × Bytes)),
    entries.healthy = true →
      walkEntries path entries files = .ok (entries.files.foldl (store path) files)
  | .nil, _, _, _ => by simp [walkEntries, Entries.files]
  | .cons name node rest, path, files, h => by
    have h2 : node.healthy = true ∧ rest.healthy = true := by
      simpa [Entries.healthy] using h
    have h3 := walk_healthy node (path ++ [name]) files h2.1
    have h4 := walkEntries_healthy rest path (node.files.foldl (store (path ++ [name])) files) h2.2
    have hs : store (path ++ [name]) = fun m e => store path m (name :: e.1, e.2) := by
      funext m e
      simp [store]
    rw [hs] at h3 h4
    simp only [walkEntries, h3, h4, Entries.files, List.foldl_append, List.foldl_map]
end

mutual
theorem walk_unhealthy : ∀ (node : Node) (path : List String) (files : List (String × Bytes)),
    node.healthy = false → ∃ e, walk path node files = .error e
  | .missing e, _, _, _ => ⟨e, by simp [walk, walkFn]⟩
  | .file _ (.ok _), _, _, h => by simp [Node.healthy] at h
  | .file _ (.error e), _, _, _ => ⟨e, by simp [walk, walkFn]⟩
  | .dir (some e) _, _, _, _ => ⟨e, by simp [walk, walkFn]⟩
  | .dir none entries, path, files, h => by
    obtain ⟨e, he⟩ := walkEntries_unhealthy entries path files (by simpa [Node.healthy] using h)
    exact ⟨e, by simp [walk, walkFn, he]⟩
theorem walkEntries_unhealthy : ∀ (entries : Entries) (path : List String)
    (files : List (String × Bytes)),
    entries.healthy = false → ∃ e, walkEntries path entries files = .error e
  | .nil, _, _, h => by simp [Entries.healthy] at h
  | .cons name node rest, path, files, h => by
    by_cases hn : node.healthy = true
    · have hr : rest.healthy = false := by
        simpa [Entries.healthy, hn] using h
      obtain ⟨e, he⟩ := walkEntries_unhealthy rest path
        (node.files.foldl (store (path ++ [name])) files) hr
      exact ⟨e, by simp [walkEntries, walk_healthy node (path ++ [name]) files hn, he]⟩
    · obtain ⟨e, he⟩ := walk_unhealthy node (path ++ [name]) files (by simpa using hn)
      exact ⟨e, by simp [walkEntries, he]⟩
end

theorem lookup_filter_ne (k k1 : String) (hne : k ≠ k1) :
    ∀ m : List (String × Bytes), (m.filter fun p => p.1 != k1).lookup k = m.lookup k
  | [] => rfl
  | (a, b) :: m => by
    by_cases ha : a = k1
    · subst ha
      have hka : (k == a) = false := by simpa using hne
      simp [List.filter_cons, List.lookup_cons, hka, lookup_filter_ne k a hne m]
    · have : (a != k1) = true := by simpa using ha
      simp [List.filter_cons, this, List.lookup_cons, lookup_filter_ne k k1 hne m]

theorem lookup_mapSet (m : List (String × Bytes)) (k1 : String) (v : Bytes) (k : String) :
    (mapSet m k1 v).lookup k = if k = k1 then some v else m.lookup k := by
  unfold mapSet
  by_cases h : k = k1
  · subst h; simp
  · have hk : (k == k1) = false := by simpa using h
    simp [List.lookup_cons, hk, h, lookup_filter_ne k k1 h m]

theorem keys_mapSet_nodup (m : List (String × Bytes)) (k1 : String) (v : Bytes)
    (h : (m.map Prod.fst).Nodup) : ((mapSet m k1 v).map Prod.fst).Nodup := by
  unfold mapSet
  rw [List.map_cons, List.nodup_cons]
  constructor
  · intro hmem
    obtain ⟨p, hp, hk⟩ := List.mem_map.mp hmem
    have := (List.mem_filter.mp hp).2
    simp [hk] at this
  · exact (h.sublist ((List.filter_sublist m).map Prod.fst))

theorem keys_foldl_store_nodup (path : List String) :
    ∀ (l : List (List String × Bytes)) (m : List (String × Bytes)),
      (m.map Prod.fst).Nodup → ((l.foldl (store path) m).map Prod.fst).Nodup
  | [], _, h => h
  | e :: l, m, h => by
    simpa using keys_foldl_store_nodup path l (store path m e) (keys_mapSet_nodup m _ _ h)

/-- The file map after the assignments of a walk whose keys are pairwise distinct. -/
theorem lookup_foldl_store (path : List String) (k : String) (c : Bytes) :
    ∀ (l : List (List String × Bytes)) (m : List (String × Bytes)),
      (l.map fun e => relPath (path ++ e.1)).Nodup →
      ((l.foldl (store path) m).lookup k = some c ↔
        (∃ e ∈ l, relPath (path ++ e.1) = k ∧ e.2 = c) ∨
          ((∀ e ∈ l, relPath (path ++ e.1) ≠ k) ∧ m.lookup k = some c))
  | [], m, _ => by simp
  | e :: l, m, hnd => by
    rw [List.map_cons, List.nodup_cons] at hnd
    have ih := lookup_foldl_store path k c l (store path m e) hnd.2
    rw [List.foldl_cons, ih]
    unfold store
    rw [lookup_mapSet]
    by_cases hk : k = relPath (path ++ e.1)
    · have hnone : ∀ e1 ∈ l, relPath (path ++ e1.1) ≠ k := by
        intro e1 he1 heq
        exact hnd.1 (List.mem_map.mpr ⟨e1, he1, by rw [heq, hk]⟩)
      constructor
      · rintro (⟨e1, he1, h1, _⟩ | ⟨_, h2⟩)
        · exact absurd h1 (hnone e1 he1)
        · left
          refine ⟨e, by simp, hk.symm, ?_⟩
          simpa [hk] using h2
      · rintro (⟨e1, he1, h1, h2⟩ | ⟨h1, _⟩)
        · rcases List.mem_cons.mp he1 with rfl | he1
          · right
            exact ⟨hnone, by simp [hk, h2]⟩
          · exact absurd h1 (hnone e1 he1)
        · exact absurd hk.symm (h1 e (by simp))
    · constructor
      · rintro (⟨e1, he1, h1, h2⟩ | ⟨h1, h2⟩)
        · left
          exact ⟨e1, by simp [he1], h1, h2⟩
        · right
          refine ⟨?_, by simpa [hk] using h2⟩
          intro e1 he1
          rcases List.mem_cons.mp he1 with rfl | he1
          · exact fun h => hk h.symm
          · exact h1 e1 he1
      · rintro (⟨e1, he1, h1, h2⟩ | ⟨h1, h2⟩)
        · rcases List.mem_cons.mp he1 with rfl | he1
          · exact absurd h1.symm hk
          · left
            exact ⟨e1, he1, h1, h2⟩
        · right
          exact ⟨fun e1 he1 => h1 e1 (by simp [he1]), by simpa [hk] using h2⟩

theorem split_at_separator {α : Type} (x : α) :
    ∀ (l1 l2 r1 r2 : List α), x ∉ l1 → x ∉ l2 → l1 ++ x :: r1 = l2 ++ x :: r2 →
      l1 = l2 ∧ r1 = r2
  | [], [], _, _, _, _, h => by simpa using h
  | [], b :: l2, _, _, _, h2, h => by
    simp only [List.nil_append, List.cons_append, List.cons.injEq] at h
    exact absurd (by simp [h.1]) h2
  | a :: l1, [], _, _, h1, _, h => by
    simp only [List.nil_append, List.cons_append, List.cons.injEq] at h
    exact absurd (by simp [h.1]) h1
  | a :: l1, b :: l2, r1, r2, h1, h2, h => by
    simp only [List.cons_append, List.cons.injEq] at h
    have := split_at_separator x l1 l2 r1 r2 (fun hm => h1 (by simp [hm]))
      (fun hm => h2 (by simp [hm])) h.2
    exact ⟨by rw [h.1, this.1], this.2⟩

theorem relPath_data_cons (a b : String) (rest : List String) :
    (relPath (a :: b :: rest)).data = a.data ++ '/' :: (relPath (b :: rest)).data := by
  simp [relPath]

/-- Relative paths made of names without the separator are told apart by the
string they are joined into. -/
theorem relPath_inj : ∀ (p q : List String), p ≠ [] → q ≠ [] →
    (∀ a ∈ p, '/' ∉ a.data) → (∀ a ∈ q, '/' ∉ a.data) → relPath p = relPath q → p = q
  | [], _, hp, _, _, _, _ => absurd rfl hp
  | _ :: _, [], _, hq, _, _, _ => absurd rfl hq
  | [a], [b], _, _, _, _, h => by simpa [relPath] using h
  | [a], b :: c :: q, _, _, ha, _, h => by
    have hd := congrArg String.data h
    rw [relPath_data_cons] at hd
    simp only [relPath] at hd
    exact absurd (by rw [hd]; simp) (ha a (by simp))
  | a :: c :: p, [b], _, _, _, hb, h => by
    have hd := congrArg String.data h
    rw [relPath_data_cons] at hd
    simp only [relPath] at hd
    exact absurd (by rw [← hd]; simp) (hb b (by simp))
  | a :: c :: p, b :: d :: q, _, _, ha, hb, h => by
    have hd := congrArg String.data h
    rw [relPath_data_cons, relPath_data_cons] at hd
    have hs := split_at_separator '/' _ _ _ _ (ha a (by simp)) (hb b (by simp)) hd
    have hab : a = b := String.ext hs.1
    have hrest : relPath (c :: p) = relPath (d :: q) := String.ext hs.2
    have := relPath_inj (c :: p) (d :: q) (by simp) (by simp)
      (fun x hx => ha x (by simp [hx])) (fun x hx => hb x (by simp [hx])) hrest
    rw [hab, this]

theorem entries_files_head : ∀ (entries : Entries) (e : List String × Bytes),
    e ∈ entries.files → ∃ name ∈ entries.names, ∃ t, e.1 = name :: t
  | .nil, e, h => by simp [Entries.files] at h
  | .cons name node rest, e, h => by
    simp only [Entries.files, List.mem_append, List.mem_map] at h
    rcases h with ⟨e1, _, rfl⟩ | h
    · exact ⟨name, by simp [Entries.names], e1.1, rfl⟩
    · obtain ⟨n1, hn1, t, ht⟩ := entries_files_head rest e h
      exact ⟨n1, by simp [Entries.names, hn1], t, ht⟩

mutual
theorem node_files_slashFree : ∀ (node : Node), node.wellNamed = true →
    ∀ e ∈ node.files, ∀ a ∈ e.1, '/' ∉ a.data
  | .missing _, _, e, he => by simp [Node.files] at he
  | .file _ (.ok _), _, e, he => by
    simp only [Node.files, List.mem_singleton] at he
    subst he
    simp
  | .file _ (.error _), _, e, he => by simp [Node.files] at he
  | .dir _ entries, h, e, he => by
    simp only [Node.files] at he
    exact entries_files_slashFree entries (by simpa [Node.wellNamed] using h) e he
theorem entries_files_slashFree : ∀ (entries : Entries), entries.wellNamed = true →
    ∀ e ∈ entries.files, ∀ a ∈ e.1, '/' ∉ a.data
  | .nil, _, e, he => by simp [Entries.files] at he
  | .cons name node rest, h, e, he => by
    simp only [Entries.wellNamed, Bool.and_eq_true, Bool.not_eq_true', List.contains_eq_any_beq,
      List.any_eq_false, beq_iff_eq] at h
    simp only [Entries.files, List.mem_append, List.mem_map] at he
    rcases he with ⟨e1, he1, rfl⟩ | he
    · intro a ha
      rcases List.mem_cons.mp ha with rfl | ha
      · intro hmem
        exact h.1.1.1 '/' hmem rfl
      · exact node_files_slashFree node h.1.2 e1 he1 a ha
    · exact entries_files_slashFree rest h.2 e he
end

theorem wellNamed_cons (name : String) (node : Node) (rest : Entries)
    (h : (Entries.cons name node rest).wellNamed = true) :
    '/' ∉ name.data ∧ name ∉ rest.names ∧ node.wellNamed = true ∧ rest.wellNamed = true := by
  simp only [Entries.wellNamed, Bool.and_eq_true, Bool.not_eq_true'] at h
  refine ⟨?_, ?_, h.1.2, h.2⟩
  · intro hmem
    have := h.1.1.1
    simp at this
    exact this hmem
  · intro hmem
    have := h.1.1.2
    simp at this
    exact this hmem

mutual
theorem node_files_nodup : ∀ (node : Node), node.wellNamed = true →
    (node.files.map Prod.fst).Nodup
  | .missing _, _ => by simp [Node.files]
  | .file _ (.ok _), _ => by simp [Node.files]
  | .file _ (.error _), _ => by simp [Node.files]
  | .dir _ entries, h => by
    simp only [Node.files]
    exact entries_files_nodup entries (by simpa [Node.wellNamed] using h)
theorem entries_files_nodup : ∀ (entries : Entries), entries.wellNamed = true →
    (entries.files.map Prod.fst).Nodup
  | .nil, _ => by simp [Entries.files]
  | .cons name node rest, h => by
    obtain ⟨_, hname, hnode, hrest⟩ := wellNamed_cons name node rest h
    have h1 := node_files_nodup node hnode
    have h2 := entries_files_nodup rest hrest
    simp only [Entries.files, List.map_append, List.map_map]
    rw [List.nodup_append]
    refine ⟨?_, h2, ?_⟩
    · have : (node.files.map (Prod.fst ∘ fun e => (name :: e.1, e.2))) =
          (node.files.map Prod.fst).map (List.cons name) := by
        simp [List.map_map, Function.comp_def]
      rw [this]
      exact h1.map (fun a b hab => by simpa using hab)
    · intro x hx1 hx2
      obtain ⟨e1, _, rfl⟩ := List.mem_map.mp hx1
      obtain ⟨e2, he2, heq⟩ := List.mem_map.mp hx2
      obtain ⟨n2, hn2, t, ht⟩ := entries_files_head rest e2 he2
      simp only [Function.comp_apply] at heq
      rw [ht] at heq
      simp only [List.cons.injEq] at heq
      exact hname (heq.1 ▸ hn2)
end

mutual
theorem node_files_regular : ∀ (node : Node), node.allRegular = true →
    node.files = node.regularFiles
  | .missing _, _ => by simp [Node.files, Node.regularFiles]
  | .file true (.ok _), _ => by simp [Node.files, Node.regularFiles]
  | .file false (.ok _), h => by simp [Node.allRegular] at h
  | .file true (.error _), _ => by simp [Node.files, Node.regularFiles]
  | .file false (.error _), _ => by simp [Node.files, Node.regularFiles]
  | .dir _ entries, h => by
    simp only [Node.files, Node.regularFiles]
    exact entries_files_regular entries (by simpa [Node.allRegular] using h)
theorem entries_files_regular : ∀ (entries : Entries), entries.allRegular = true →
    entries.files = entries.regularFiles
  | .nil, _ => by simp [Entries.files, Entries.regularFiles]
  | .cons name node rest, h => by
    have h2 : node.allRegular = true ∧ rest.allRegular = true := by
      simpa [Entries.allRegular] using h
    simp only [Entries.files, Entries.regularFiles, node_files_regular node h2.1,
      entries_files_regular rest h2.2]
end

theorem entries_keys_nodup (entries : Entries) (h : entries.wellNamed = true) :
    (entries.files.map fun e => relPath ([] ++ e.1)).Nodup := by
  have hmap : (entries.files.map fun e => relPath ([] ++ e.1)) =
      (entries.files.map Prod.fst).map relPath := by
    simp [List.map_map, Function.comp_def]
  rw [hmap]
  refine List.Nodup.map_on ?_ (entries_files_nodup entries h)
  intro x hx y hy hxy
  obtain ⟨e1, he1, rfl⟩ := List.mem_map.mp hx
  obtain ⟨e2, he2, rfl⟩ := List.mem_map.mp hy
  obtain ⟨n1, _, t1, ht1⟩ := entries_files_head entries e1 he1
  obtain ⟨n2, _, t2, ht2⟩ := entries_files_head entries e2 he2
  exact relPath_inj e1.1 e2.1 (by rw [ht1]; simp) (by rw [ht2]; simp)
    (entries_files_slashFree entries h e1 he1) (entries_files_slashFree entries h e2 he2) hxy

/-- C9 (amended): for every directory tree rooted at `dir` whose names are
those of a file system, when no read or traversal step fails the ConfigMap
that `createConfigMap` submits, in its single create call, has as its key set
exactly the paths, relative to `dir`, of the entries that are not directories
(regular files, and equally any symbolic link or special file that can be
read), each key once and mapped to the bytes read at that path; directories
contribute no key; on a tree whose non-directory entries are all regular
files these are exactly the regular files; and when a read or traversal step
fails no create call is made and an error is returned. -/
theorem configMap_holds_the_files (env : Env) (ns name dir : String) (readErr : Option Error)
    (entries : Entries) (htree : env.fileTree dir = .dir readErr entries)
    (hnames : entries.wellNamed = true) :
    ((Node.dir readErr entries).healthy = true →
      ∃ data, createConfigMap env ns name dir =
          ⟨[.configMapCreate ns ⟨name, data⟩], (), env.configMapCreate ns ⟨name, data⟩⟩ ∧
        (∀ key content, data.lookup key = some content ↔
          ∃ path, (path, content) ∈ entries.files ∧ relPath path = key) ∧
        (data.map Prod.fst).Nodup ∧
        (entries.allRegular = true → entries.files = entries.regularFiles)) ∧
    ((Node.dir readErr entries).healthy = false →
      (createConfigMap env ns name dir).trace = [] ∧
        (createConfigMap env ns name dir).err ≠ none) := by
  constructor
  · intro hh
    have hwalk := walk_healthy (.dir readErr entries) [] [] hh
    simp only [Node.files] at hwalk
    refine ⟨entries.files.foldl (store []) [], ?_, ?_, ?_, entries_files_regular entries⟩
    · unfold createConfigMap
      simp only [htree, hwalk]
    · intro key content
      rw [lookup_foldl_store [] key content entries.files [] (entries_keys_nodup entries hnames)]
      constructor
      · rintro (⟨e, he, h1, h2⟩ | ⟨_, h2⟩)
        · exact ⟨e.1, by rw [← h2]; exact he, by simpa using h1⟩
        · simp at h2
      · rintro ⟨path, hmem, hkey⟩
        exact Or.inl ⟨(path, content), hmem, by simpa using hkey, rfl⟩
    · exact keys_foldl_store_nodup [] entries.files [] (by simp)
  · intro hh
    obtain ⟨e, he⟩ := walk_unhealthy (.dir readErr entries) [] [] hh
    unfold createConfigMap
    simp [htree, he]

/-- C9, witness: the demo build context is staged in one create call whose
keys are the relative paths of its three non-directory entries, and a context
with an unreadable file is not staged at all. -/
theorem configMap_holds_the_files_witness :
    (∃ data, createConfigMap (treeEnv demoTree) "default" "myapp" "/home/dev/myapp" =
        ⟨[.configMapCreate "default" ⟨"myapp", data⟩], (), none⟩ ∧
      (∀ key content, data.lookup key = some content ↔
        ∃ path, (path, content) ∈
            [(["Dockerfile"], [70, 82, 79, 77]), (["latest"], [70, 82, 79, 77]),
              (["src", "main.go"], [112, 107, 103])] ∧
          relPath path = key)) ∧
    ((createConfigMap (treeEnv brokenTree) "default" "myapp" "/home/dev/myapp").trace = [] ∧
      (createConfigMap (treeEnv brokenTree) "default" "myapp" "/home/dev/myapp").err ≠ none) := by
  constructor
  · obtain ⟨data, h1, h2, _, _⟩ :=
      (configMap_holds_the_files (treeEnv demoTree) "default" "myapp" "/home/dev/myapp" none
        (.cons "Dockerfile" (.file true (.ok [70, 82, 79, 77]))
          (.cons "latest" (.file false (.ok [70, 82, 79, 77]))
            (.cons "src" (.dir none (.cons "main.go" (.file true (.ok [112, 107, 103])) .nil))
              .nil)))
        rfl (by decide)).1 (by decide)
    exact ⟨data, h1, h2⟩
  · exact (configMap_holds_the_files (treeEnv brokenTree) "default" "myapp" "/home/dev/myapp" none
      (.cons "Dockerfile" (.file true (.ok [70, 82, 79, 77]))
        (.cons "secret.key" (.file true (.error "permission denied")) .nil))
      rfl (by decide)).2 (by decide)

/-- C9, counterexample: in the demo build context `latest` is a symbolic
link, not a regular file, yet the ConfigMap submitted holds the key `latest`
next to the keys of the two regular files. -/
theorem configMap_key_of_symlink_counterexample :
    (createConfigMap (treeEnv demoTree) "default" "myapp" "/home/dev/myapp").trace =
      [.configMapCreate "default" ⟨"myapp",
        [("src/main.go", [112, 107, 103]), ("latest", [70, 82, 79, 77]),
          ("Dockerfile", [70, 82, 79, 77])]⟩] ∧
    demoTree.regularFiles.map (fun e => relPath e.1) = ["Dockerfile", "src/main.go"] ∧
    demoTree.wellNamed = true ∧ demoTree.healthy = true := by
  refine ⟨by decide, by decide, by decide, by decide⟩

end DeploySh
